import Mathlib

/-!
Verification development for the Lynx ingestion / RAG pipeline
(`ingestion.py`, `main.py`, `embedding.py`).

The repository's core is embedded shallowly:
* normalized text is `List Char`;
* the Mongo collection `coll` (the ParseCache) is a list of `CachedDoc`
  records with a unique index on `file_hash`; `insert_one` fails with a
  duplicate-key condition when a record with the same hash exists, and a
  `storeOk` flag models the health of the store connection (any other
  persistence error);
* external collaborators (LlamaParse page extraction, pandas CSV reading
  and preview rendering, `json.load`/`json.dumps`, BeautifulSoup text
  extraction, the embedding model and the chat agent) are parameters of
  the functions that call them — the repository's own logic around them
  is translated literally;
* `sha256_of_file` is an abstract `hashFn : List Char → Nat` parameter.
-/

namespace Lynx

/-- Normalized document text, modelled as a list of characters. -/
abbrev Text := List Char

/-- A cached parse record as built by `upsert_parsed_doc` in `ingestion.py`:
`{file_hash, file_path, file_size, file_mtime, md, meta, cached_at}`.
Metadata is an association list of string keys and values. -/
structure CachedDoc where
  file_hash : Nat
  file_path : String
  file_size : Nat
  file_mtime : Nat
  md : Text
  meta : List (String × String)
  cached_at : Nat
  deriving Repr, DecidableEq

/-- The ParseCache store: the `parsed_files` Mongo collection. -/
abbrev Store := List CachedDoc

/-- Persistence errors: the duplicate-key condition raised by the unique
index on `file_hash`, and any other store failure. -/
inductive StoreErr where
  | dupKey
  | storeFailure
  deriving Repr, DecidableEq

/-- `get_cached_parse`: `coll.find_one({"file_hash": file_hash})`. -/
def get_cached_parse (st : Store) (h : Nat) : Option CachedDoc :=
  st.find? (fun d => d.file_hash == h)

/-- `coll.insert_one(doc)` under the unique index on `file_hash`
(created at module load): raises `DuplicateKeyError` when a record with
the same hash already exists; `storeOk = false` models any other
persistence failure of the store connection. -/
def insert_one (st : Store) (doc : CachedDoc) (storeOk : Bool) : Except StoreErr Store :=
  if !storeOk then .error .storeFailure
  else if st.any (fun d => d.file_hash == doc.file_hash) then .error .dupKey
  else .ok (st ++ [doc])

/-- `upsert_parsed_doc(file_path, file_hash, md, meta=None)`: build the
document, try `insert_one`; on `DuplicateKeyError` re-read via
`get_cached_parse` and return `cached if cached else doc`; any other
store error is not caught and propagates. -/
def upsert_parsed_doc (st : Store) (path : String) (h : Nat) (md : Text)
    (meta : Option (List (String × String))) (size mtime now : Nat) (storeOk : Bool) :
    Except StoreErr (Store × CachedDoc) :=
  let doc : CachedDoc :=
    { file_hash := h, file_path := path, file_size := size, file_mtime := mtime,
      md := md, meta := meta.getD [], cached_at := now }
  match insert_one st doc storeOk with
  | .ok st' => .ok (st', doc)
  | .error .dupKey =>
      match get_cached_parse st h with
      | some cached => .ok (st, cached)
      | none => .ok (st, doc)
  | .error .storeFailure => .error .storeFailure

/-- The status mapping a parser returns alongside the markdown:
`{"cached": True/False, "file_hash": ...}` (extra per-format fields such
as `cached_at` / `stored_at` / `rows` are not claim-relevant). -/
structure RetMeta where
  cached : Bool
  file_hash : Nat
  deriving Repr, DecidableEq

/-- Result and observable effects of one parser call: the store after the
call, the returned markdown, the returned status, whether
`upsert_parsed_doc` was called, and whether the format-specific
normalization of the file content ran (as opposed to a cache
short-circuit). -/
structure ParseRet where
  store : Store
  md : Text
  rmeta : RetMeta
  attemptedInsert : Bool
  processed : Bool
  deriving Repr, DecidableEq

/-- `parse_pdf_document`: LlamaParse is an external service; `pages`
models the page markdowns of `result_raw.pages`. The page texts are
joined with a blank-line separator. -/
def parse_pdf_document (hashFn : Text → Nat) (st : Store) (path : String) (content : Text)
    (pages : List Text) (use_cache : Bool) (size mtime now : Nat) (storeOk : Bool) :
    Except StoreErr ParseRet :=
  let h := hashFn content
  match (if use_cache then get_cached_parse st h else none) with
  | some cached => .ok ⟨st, cached.md, ⟨true, h⟩, false, false⟩
  | none =>
    let result_md := List.intercalate "\n\n".toList pages
    match upsert_parsed_doc st path h result_md
        (some [("type", "pdf"), ("pages", toString pages.length)]) size mtime now storeOk with
    | .error e => .error e
    | .ok (st', stored) => .ok ⟨st', stored.md, ⟨false, h⟩, true, true⟩

/-- The parts of a pandas DataFrame that `parse_csv_document` consumes:
columns with inferred dtypes, the shape, and the rendered preview
(`df.head(max_rows_preview).to_markdown(...)`, with its `to_json`
fallback — rendering is pandas' job, hence abstract). -/
structure Frame where
  columns : List String
  dtypes : List String
  nrows : Nat
  ncols : Nat
  previewMd : Text
  deriving Repr, DecidableEq

/-- `parse_csv_document`: `readResult` models the outcome of
`pd.read_csv` (`.error e` = the exception text of a malformed CSV). On
failure the fallback reads a 100,000-character prefix of the file, wraps
it in a literal fenced block and records the error in the metadata. -/
def parse_csv_document (hashFn : Text → Nat) (st : Store) (path : String) (content : Text)
    (readResult : Except String Frame) (use_cache : Bool) (size mtime now : Nat) (storeOk : Bool) :
    Except StoreErr ParseRet :=
  let h := hashFn content
  match (if use_cache then get_cached_parse st h else none) with
  | some cached => .ok ⟨st, cached.md, ⟨true, h⟩, false, false⟩
  | none =>
    match readResult with
    | .error e =>
      let text := content.take 100000
      let md := "```\n".toList ++ text ++ "\n```".toList
      match upsert_parsed_doc st path h md (some [("type", "csv"), ("error", e)])
          size mtime now storeOk with
      | .error err => .error err
      | .ok (st', stored) => .ok ⟨st', stored.md, ⟨false, h⟩, true, true⟩
    | .ok df =>
      let schema_lines := (df.columns.zip df.dtypes).map
        (fun cd => "- **".toList ++ cd.1.toList ++ "**: ".toList ++ cd.2.toList)
      let md := "### Schema\n\n".toList ++ List.intercalate "\n".toList schema_lines
        ++ "\n\n### Preview (first rows)\n\n".toList ++ df.previewMd
      match upsert_parsed_doc st path h md
          (some [("type", "csv"), ("rows", toString df.nrows), ("cols", toString df.ncols)])
          size mtime now storeOk with
      | .error err => .error err
      | .ok (st', stored) => .ok ⟨st', stored.md, ⟨false, h⟩, true, true⟩

/-- `parse_json_document`: `jsonPretty` models `json.dumps(json.load(f),
indent=2)` (`none` = malformed JSON). On failure the fallback is
`f.read(max_chars)` followed by `pretty[:max_chars]` plus the
`"\n...truncated"` marker exactly when `len(pretty) == max_chars`. -/
def parse_json_document (hashFn : Text → Nat) (st : Store) (path : String) (content : Text)
    (jsonPretty : Option Text) (use_cache : Bool) (max_chars : Nat) (size mtime now : Nat)
    (storeOk : Bool) : Except StoreErr ParseRet :=
  let h := hashFn content
  match (if use_cache then get_cached_parse st h else none) with
  | some cached => .ok ⟨st, cached.md, ⟨true, h⟩, false, false⟩
  | none =>
    let pretty :=
      match jsonPretty with
      | some p => p
      | none =>
        let raw := content.take max_chars
        raw.take max_chars ++ (if raw.length = max_chars then "\n...truncated".toList else [])
    let md := "```json\n".toList ++ pretty ++ "\n```".toList
    match upsert_parsed_doc st path h md (some [("type", "json")]) size mtime now storeOk with
    | .error err => .error err
    | .ok (st', stored) => .ok ⟨st', stored.md, ⟨false, h⟩, true, true⟩

/-- Python `str.lower()` (ASCII case folding, as used on extensions). -/
def strLower (s : String) : String := String.mk (s.data.map Char.toLower)

/-- Python `str.startswith(p)`. -/
def strStartsWith (s p : String) : Bool := p.data.isPrefixOf s.data

/-- Python `str.strip()` on a line. -/
def trimWs (l : Text) : Text :=
  ((l.dropWhile Char.isWhitespace).reverse.dropWhile Char.isWhitespace).reverse

/-- `parse_html_document`: `strip` models BeautifulSoup with
script/style/noscript elements extracted followed by `get_text("\n")`.
Only `f.read(max_chars)` of the raw file is ever handed to it; the
result is split into lines, blank lines dropped, joined with blank
lines, and bounded to `max_chars` with a truncation marker. -/
def parse_html_document (strip : Text → Text) (hashFn : Text → Nat) (st : Store) (path : String)
    (content : Text) (use_cache : Bool) (max_chars : Nat) (size mtime now : Nat)
    (storeOk : Bool) : Except StoreErr ParseRet :=
  let h := hashFn content
  match (if use_cache then get_cached_parse st h else none) with
  | some cached => .ok ⟨st, cached.md, ⟨true, h⟩, false, false⟩
  | none =>
    let raw := content.take max_chars
    let text := strip raw
    let lines := ((text.splitOn '\n').map trimWs).filter (fun ln => !ln.isEmpty)
    let text_clean := List.intercalate "\n\n".toList lines
    let md := if text_clean.length ≤ max_chars then text_clean
              else text_clean.take max_chars ++ "\n\n...truncated".toList
    match upsert_parsed_doc st path h md (some [("type", "html")]) size mtime now storeOk with
    | .error err => .error err
    | .ok (st', stored) => .ok ⟨st', stored.md, ⟨false, h⟩, true, true⟩

/-- One file of the input corpus, together with the behaviour of the
external collaborators on it (LlamaParse pages, the `pd.read_csv`
outcome, the `json` module outcome, the BeautifulSoup extraction) and
the health of the store connection during its insert. -/
structure FileEntry where
  name : String
  ext : String
  content : Text
  pages : List Text
  csvResult : Except String Frame
  jsonPretty : Option Text
  strip : Text → Text
  size : Nat
  mtime : Nat
  storeOk : Bool

/-- `parse_file_by_type`: dispatch on the lower-cased extension; the
final branch (txt or fallback) reads a 200,000-character prefix and
upserts it directly, without consulting the cache. -/
def parse_file_by_type (hashFn : Text → Nat) (st : Store) (f : FileEntry)
    (use_cache : Bool) (now : Nat) : Except StoreErr ParseRet :=
  let ext := strLower f.ext
  if ext = ".pdf" then
    parse_pdf_document hashFn st f.name f.content f.pages use_cache f.size f.mtime now f.storeOk
  else if ext = ".csv" then
    parse_csv_document hashFn st f.name f.content f.csvResult use_cache f.size f.mtime now f.storeOk
  else if ext = ".json" then
    parse_json_document hashFn st f.name f.content f.jsonPretty use_cache 200000
      f.size f.mtime now f.storeOk
  else if ext = ".html" ∨ ext = ".htm" then
    parse_html_document f.strip hashFn st f.name f.content use_cache 200000
      f.size f.mtime now f.storeOk
  else
    let text := f.content.take 200000
    let h := hashFn f.content
    match upsert_parsed_doc st f.name h text (some [("type", "txt_or_other")])
        f.size f.mtime now f.storeOk with
    | .error err => .error err
    | .ok (st', stored) => .ok ⟨st', stored.md, ⟨false, h⟩, true, true⟩

/-- Modelled from the spec: the Chunker (`RecursiveCharacterTextSplitter`
of `langchain_text_splitters`, an external dependency not in the
repository sources). Per §4.4 it produces an ordered sequence of spans of
at most `chunk_size` units in which consecutive spans overlap by
`overlap` units, every unit of the input appearing in at least one span;
the separator-preferring boundary refinement does not change which units
are covered and is not modelled. Fuel-based recursion: each step emits a
`chunk_size` span and advances by `chunk_size - overlap`. -/
def splitTextAux (chunk_size step : Nat) : Nat → Text → List Text
  | 0, _ => []
  | fuel + 1, s =>
    if s = [] then []
    else if s.length ≤ chunk_size then [s]
    else s.take chunk_size :: splitTextAux chunk_size step fuel (s.drop step)

/-- Modelled from the spec: entry point of the Chunker (see
`splitTextAux`); the fuel `s.length` suffices whenever
`overlap < chunk_size`. -/
def splitText (chunk_size overlap : Nat) (s : Text) : List Text :=
  splitTextAux chunk_size (chunk_size - overlap) s.length s

/-- Concatenation of a chunk sequence with the leading `overlap` units of
every chunk after the first removed ("overlaps removed", spec §8). -/
def joinChunks (overlap : Nat) : List Text → Text
  | [] => []
  | c :: rest => c ++ (rest.map (List.drop overlap)).flatten

/-- Metadata attached to each chunk in `build_or_load_vectorstore`:
`{"source": fname, "file_hash": ..., "chunk_id": i}`. -/
structure ChunkMeta where
  source : String
  file_hash : Nat
  chunk_id : Nat
  deriving Repr, DecidableEq

/-- The external Chroma vector index: the records added so far. -/
abbrev VectorIndex := List (Text × ChunkMeta)

/-- Accumulator of the corpus walk inside `build_or_load_vectorstore`:
the ParseCache store threaded through the parser calls, the `texts` and
`metadatas` lists, and (instrumentation) which files were parsed and
which were skipped by the per-file `except Exception: continue`. -/
structure WalkAcc where
  store : Store
  texts : List Text
  metadatas : List ChunkMeta
  parsed : List String
  skipped : List String
  deriving Repr, DecidableEq

/-- The file loop of `build_or_load_vectorstore`: skip dotfiles, parse
each file with `use_cache=True`, absorb any exception by skipping the
file, and append one chunk text and metadata record per chunk. -/
def walkFiles (hashFn : Text → Nat) (split : Text → List Text) (now : Nat) :
    List FileEntry → WalkAcc → WalkAcc
  | [], acc => acc
  | f :: fs, acc =>
    if strStartsWith f.name "." then walkFiles hashFn split now fs acc
    else
      match parse_file_by_type hashFn acc.store f true now with
      | .error _ => walkFiles hashFn split now fs { acc with skipped := acc.skipped ++ [f.name] }
      | .ok ret =>
        let chunks := split ret.md
        let newMetas := (List.range chunks.length).map
          (fun i => ChunkMeta.mk f.name ret.rmeta.file_hash i)
        walkFiles hashFn split now fs
          { store := ret.store, texts := acc.texts ++ chunks,
            metadatas := acc.metadatas ++ newMetas,
            parsed := acc.parsed ++ [f.name], skipped := acc.skipped }

/-- Result of `build_or_load_vectorstore`: the vector index and the
ParseCache store afterwards, plus the instrumentation of the walk. -/
structure BuildRet where
  index : VectorIndex
  store : Store
  parsed : List String
  skipped : List String
  deriving Repr, DecidableEq

/-- `build_or_load_vectorstore`: probe the index for existing records
(`len(vectordb.get()["metadatas"]) > 0`); if it holds data, skip
ingestion entirely; otherwise walk the input directory and, if any
chunks were produced, add them to the index in one batch. -/
def build_or_load_vectorstore (hashFn : Text → Nat) (split : Text → List Text) (now : Nat)
    (files : List FileEntry) (st : Store) (index : VectorIndex) : BuildRet :=
  let has_content := index.length > 0
  if has_content then ⟨index, st, [], []⟩
  else
    let acc := walkFiles hashFn split now files ⟨st, [], [], [], []⟩
    let index' := if acc.texts.length > 0 then index ++ acc.texts.zip acc.metadatas else index
    ⟨index', acc.store, acc.parsed, acc.skipped⟩

/-- A retrieved chunk Document as consumed by `build_context_snippets`:
`page_content` plus the `source` and `chunk_id` metadata. -/
structure RetrievedDoc where
  page_content : Text
  source : String
  chunk_id : Nat
  deriving Repr, DecidableEq

/-- `build_context_snippets`: one delimited part per retrieved chunk,
each stripped and truncated to `char_limit_per_chunk` with a trailing
marker, joined with newlines. -/
def build_context_snippets (docs : List RetrievedDoc) (char_limit_per_chunk : Nat) : Text :=
  List.intercalate "\n".toList (docs.map (fun d =>
    let text := trimWs d.page_content
    let text := if text.length > char_limit_per_chunk
      then text.take char_limit_per_chunk ++ "\n\n...[truncated]".toList else text
    "--- CONTEXT (file: ".toList ++ d.source.toList ++ ", chunk: ".toList
      ++ (toString d.chunk_id).toList ++ ") ---\n".toList ++ text ++ "\n".toList))

/-- The user-visible outcome of the query phase of `main`: what is
printed, and whether the chat agent was invoked. -/
structure QueryOut where
  printed : Text
  agentInvoked : Bool
  deriving Repr, DecidableEq

/-- The query phase of `main` (after `similarity_search` returned
`results`): `if not results: print("Data not found!"); return`, otherwise
build the context and invoke the agent on the assembled prompt. -/
def run_query (query : String) (results : List RetrievedDoc) (agent : Text → Text) : QueryOut :=
  if results = [] then ⟨"Data not found!".toList, false⟩
  else
    let context := build_context_snippets results 2000
    ⟨agent ("CONTEXT:\n\n".toList ++ context ++ "\n\nUser question: ".toList
        ++ query.toList ++ "\n\nAnswer concisely and cite sources.".toList), true⟩

/-! ## Store lemmas -/

/-- A record found by fingerprint carries that fingerprint. -/
theorem get_cached_parse_hash (st : Store) (h : Nat) (c : CachedDoc)
    (hc : get_cached_parse st h = some c) : c.file_hash = h := by
  unfold get_cached_parse at hc
  have := List.find?_some hc
  simpa using this

/-- Under the uniqueness constraint, fingerprint lookup finds exactly the
record holding that fingerprint. -/
theorem get_cached_parse_unique (st : Store) (h : Nat) (c : CachedDoc)
    (hp : st.Pairwise (fun a b => a.file_hash ≠ b.file_hash))
    (hc : c ∈ st) (hh : c.file_hash = h) :
    get_cached_parse st h = some c := by
  unfold get_cached_parse
  induction st with
  | nil => cases hc
  | cons d ds ih =>
    rcases List.mem_cons.mp hc with rfl | hmem
    · simp [List.find?_cons, hh]
    · have hne := (List.pairwise_cons.mp hp).1 c hmem
      have hd : ¬ ((fun x : CachedDoc => x.file_hash == h) d = true) := by
        simp only [beq_iff_eq]
        exact fun hdh => hne (hdh.trans hh.symm)
      rw [@List.find?_cons_of_neg _ (fun x : CachedDoc => x.file_hash == h) d ds hd]
      exact ih (List.pairwise_cons.mp hp).2 hmem

/-- An empty lookup means no record carries the fingerprint. -/
theorem get_cached_parse_none_any (st : Store) (h : Nat)
    (hn : get_cached_parse st h = none) :
    st.any (fun d => d.file_hash == h) = false := by
  unfold get_cached_parse at hn
  rw [List.find?_eq_none] at hn
  rw [Bool.eq_false_iff]
  intro hany
  rcases List.any_eq_true.mp hany with ⟨d, hd, hbeq⟩
  exact hn d hd hbeq

/-- A successful insert against a healthy store returns a record carrying
the requested fingerprint and preserves the one-record-per-fingerprint
uniqueness of the store. -/
theorem upsert_ok_hash_unique (st : Store) (path : String) (h : Nat) (md : Text)
    (meta : Option (List (String × String))) (size mtime now : Nat)
    (st' : Store) (d : CachedDoc)
    (he : upsert_parsed_doc st path h md meta size mtime now true = .ok (st', d)) :
    d.file_hash = h ∧
    (st.Pairwise (fun a b => a.file_hash ≠ b.file_hash) →
     st'.Pairwise (fun a b => a.file_hash ≠ b.file_hash)) := by
  unfold upsert_parsed_doc insert_one at he
  simp only [Bool.not_true, Bool.false_eq_true, if_false] at he
  by_cases hany : st.any (fun x => x.file_hash == h) = true
  · simp only [hany, if_true] at he
    cases hlk : get_cached_parse st h with
    | some cached =>
      rw [hlk] at he
      simp only [Except.ok.injEq, Prod.mk.injEq] at he
      obtain ⟨hst, hd⟩ := he
      subst hst; subst hd
      exact ⟨get_cached_parse_hash st h _ hlk, fun hp => hp⟩
    | none =>
      rw [hlk] at he
      simp only [Except.ok.injEq, Prod.mk.injEq] at he
      obtain ⟨hst, hd⟩ := he
      subst hst; subst hd
      exact ⟨rfl, fun hp => hp⟩
  · rw [Bool.not_eq_true] at hany
    simp only [hany, Bool.false_eq_true, if_false, Except.ok.injEq, Prod.mk.injEq] at he
    obtain ⟨hst, hd⟩ := he
    subst hst; subst hd
    refine ⟨rfl, fun hp => ?_⟩
    rw [List.pairwise_append]
    refine ⟨hp, List.pairwise_singleton _ _, ?_⟩
    intro a ha b hb
    rcases List.mem_singleton.mp hb with rfl
    intro hcontra
    have : st.any (fun x => x.file_hash == h) = true :=
      List.any_eq_true.mpr ⟨a, ha, by simp [hcontra]⟩
    rw [hany] at this
    cases this

/-- An insert racing against an already-persisted record with the same
fingerprint does not raise: it re-reads the store and returns the winning
record, with the store unchanged. -/
theorem upsert_dup_wins (st : Store) (path : String) (h : Nat) (md : Text)
    (meta : Option (List (String × String))) (size mtime now : Nat) (r : CachedDoc)
    (hp : st.Pairwise (fun a b => a.file_hash ≠ b.file_hash))
    (hr : r ∈ st) (hh : r.file_hash = h) :
    upsert_parsed_doc st path h md meta size mtime now true = .ok (st, r) := by
  have hany : st.any (fun x => x.file_hash == h) = true :=
    List.any_eq_true.mpr ⟨r, hr, by simp [hh]⟩
  have hlk := get_cached_parse_unique st h r hp hr hh
  unfold upsert_parsed_doc insert_one
  simp [hany, hlk]

/-! ## C1 — race-safe insert -/

/-- C1: `upsert_parsed_doc` never raises on the duplicate-key condition.
Part 1: every successful call (healthy store) returns a record carrying
the requested fingerprint and preserves the one-record-per-fingerprint
uniqueness of the store. Part 2: when a concurrent writer has already
persisted a record with the same fingerprint, the insert re-reads the
store via `get_cached_parse` and returns the winning record with the
store unchanged — the loser of the race gets the winner's record. -/
theorem insert_idempotent_under_race :
    (∀ st path h md meta size mtime now st' d,
        upsert_parsed_doc st path h md meta size mtime now true = .ok (st', d) →
        d.file_hash = h ∧
        (st.Pairwise (fun a b => a.file_hash ≠ b.file_hash) →
         st'.Pairwise (fun a b => a.file_hash ≠ b.file_hash))) ∧
    (∀ st path h md meta size mtime now r,
        st.Pairwise (fun a b => a.file_hash ≠ b.file_hash) →
        r ∈ st → r.file_hash = h →
        upsert_parsed_doc st path h md meta size mtime now true = .ok (st, r)) :=
  ⟨fun st path h md meta size mtime now st' d he =>
      upsert_ok_hash_unique st path h md meta size mtime now st' d he,
   fun st path h md meta size mtime now r hp hr hh =>
      upsert_dup_wins st path h md meta size mtime now r hp hr hh⟩

/-- Winning record already in the store for the C1 witness. -/
def wDoc : CachedDoc :=
  ⟨5, "w.txt", 3, 1, "WIN".toList, [("type", "txt_or_other")], 2⟩

/-- C1 witness: a concrete losing insert against a store already holding
fingerprint 5 returns the winning record and leaves the store unchanged. -/
theorem insert_idempotent_under_race_witness :
    upsert_parsed_doc [wDoc] "w.txt" 5 "LOSE".toList (some [("type", "txt_or_other")])
      3 1 9 true = .ok ([wDoc], wDoc) :=
  insert_idempotent_under_race.2 [wDoc] "w.txt" 5 "LOSE".toList
    (some [("type", "txt_or_other")]) 3 1 9 wDoc (by decide) (by decide) (by decide)

/-! ## C4 — chunk coverage -/

/-- Dropping the overlap from every chunk of the tail of a split yields
exactly the input past its first `o` characters. -/
theorem splitTextAux_flatten_drop (cs o : Nat) (ho : o < cs) :
    ∀ fuel s, s ≠ [] → s.length ≤ fuel →
      ((splitTextAux cs (cs - o) fuel s).map (List.drop o)).flatten = s.drop o := by
  intro fuel
  induction fuel with
  | zero =>
    intro s hs hl
    exact absurd (List.eq_nil_of_length_eq_zero (Nat.le_zero.mp hl)) hs
  | succ n ih =>
    intro s hs hl
    unfold splitTextAux
    rw [if_neg hs]
    by_cases hlen : s.length ≤ cs
    · rw [if_pos hlen]; simp
    · rw [if_neg hlen]
      have hpos : 0 < s.length := by
        cases s with
        | nil => exact absurd rfl hs
        | cons a t => simp
      have hstep : cs - o < s.length := by omega
      have hne : s.drop (cs - o) ≠ [] := by
        intro hd
        have := congrArg List.length hd
        simp only [List.length_drop, List.length_nil] at this
        omega
      have hfl : (s.drop (cs - o)).length ≤ n := by
        simp only [List.length_drop]
        omega
      simp only [List.map_cons, List.flatten_cons]
      rw [ih _ hne hfl]
      rw [List.drop_drop, List.drop_take]
      have h1 : cs - o + o = cs := by omega
      rw [h1]
      have h3 : List.drop cs s = List.drop (cs - o) (List.drop o s) := by
        rw [List.drop_drop]
        congr 1
        omega
      rw [h3, List.take_append_drop]

/-- Every character of a `joinChunks` concatenation comes from one of the
chunks. -/
theorem mem_of_mem_joinChunks (o : Nat) (L : List Text) (a : Char)
    (ha : a ∈ joinChunks o L) : ∃ c ∈ L, a ∈ c := by
  cases L with
  | nil => simp [joinChunks] at ha
  | cons c rest =>
    simp only [joinChunks] at ha
    rcases List.mem_append.mp ha with h1 | h2
    · exact ⟨c, List.mem_cons_self c rest, h1⟩
    · rcases List.mem_flatten.mp h2 with ⟨m, hm, ham⟩
      rcases List.mem_map.mp hm with ⟨c', hc', rfl⟩
      exact ⟨c', List.mem_cons_of_mem _ hc', List.mem_of_mem_drop ham⟩

/-- C4: for every text and every valid parameter pair with
`overlap < chunk_size`, the chunk sequence covers the whole input:
concatenating the chunks with the overlaps removed reconstructs the text
exactly, and every character of the input appears in at least one
chunk. -/
theorem chunker_covers_input (chunk_size overlap : Nat) (s : Text)
    (ho : overlap < chunk_size) :
    joinChunks overlap (splitText chunk_size overlap s) = s ∧
    ∀ a ∈ s, ∃ c ∈ splitText chunk_size overlap s, a ∈ c := by
  have hjoin : joinChunks overlap (splitText chunk_size overlap s) = s := by
    unfold splitText
    cases hs : s with
    | nil => simp [splitTextAux, joinChunks]
    | cons a t =>
      rw [← hs]
      have hlen : s.length = t.length + 1 := by rw [hs]; simp
      rw [hlen]
      unfold splitTextAux
      rw [if_neg (by rw [hs]; simp)]
      by_cases hle : s.length ≤ chunk_size
      · rw [if_pos hle]
        simp [joinChunks]
      · rw [if_neg hle]
        have hne : s.drop (chunk_size - overlap) ≠ [] := by
          intro hd
          have := congrArg List.length hd
          simp only [List.length_drop, List.length_nil] at this
          omega
        have hfl : (s.drop (chunk_size - overlap)).length ≤ t.length := by
          simp only [List.length_drop]
          omega
        simp only [joinChunks]
        rw [splitTextAux_flatten_drop chunk_size overlap ho _ _ hne hfl]
        rw [List.drop_drop]
        have h1 : chunk_size - overlap + overlap = chunk_size := by omega
        rw [h1, List.take_append_drop]
  refine ⟨hjoin, fun a ha => ?_⟩
  rw [← hjoin] at ha
  exact mem_of_mem_joinChunks _ _ _ ha

/-- C4 witness: concrete reconstruction with chunk size 4 and overlap 1. -/
theorem chunker_covers_input_witness :
    joinChunks 1 (splitText 4 1 "abcdefghij".toList) = "abcdefghij".toList ∧
    ∀ a ∈ "abcdefghij".toList, ∃ c ∈ splitText 4 1 "abcdefghij".toList, a ∈ c :=
  chunker_covers_input 4 1 "abcdefghij".toList (by decide)

/-! ## C5 — one-shot bootstrap -/

/-- C5: corpus ingestion is a one-shot bootstrap — whenever the existence
probe finds records in the vector index, `build_or_load_vectorstore`
returns the index unchanged, touches neither the index nor the ParseCache
store, and parses and chunks no file at all. -/
theorem bootstrap_one_shot (hashFn : Text → Nat) (split : Text → List Text) (now : Nat)
    (files : List FileEntry) (st : Store) (index : VectorIndex) (h : index ≠ []) :
    build_or_load_vectorstore hashFn split now files st index = ⟨index, st, [], []⟩ := by
  unfold build_or_load_vectorstore
  have hpos : index.length > 0 := List.length_pos.mpr h
  simp [hpos]

/-- C5 witness: a nonempty index skips ingestion of a pending file. -/
theorem bootstrap_one_shot_witness :
    build_or_load_vectorstore (fun c => c.length) (splitText 800 100) 0
      [⟨"a.txt", ".txt", "hi".toList, [], .error "", none, id, 2, 0, true⟩] []
      [("x".toList, ⟨"s", 7, 0⟩)] = ⟨[("x".toList, ⟨"s", 7, 0⟩)], [], [], []⟩ :=
  bootstrap_one_shot (fun c => c.length) (splitText 800 100) 0
    [⟨"a.txt", ".txt", "hi".toList, [], .error "", none, id, 2, 0, true⟩] []
    [("x".toList, ⟨"s", 7, 0⟩)] (by decide)

/-! ## C8 — empty retrieval is terminal -/

/-- C8: whenever retrieval returns zero chunks, the query phase of `main`
prints the fixed "Data not found!" response and returns without ever
invoking the chat agent; the empty-retrieval state is an ordinary return,
not an error. -/
theorem empty_retrieval_terminal (query : String) (results : List RetrievedDoc)
    (agent : Text → Text) (h : results = []) :
    run_query query results agent = ⟨"Data not found!".toList, false⟩ := by
  subst h
  simp [run_query]

/-- C8 witness: a concrete query over zero retrieved chunks. -/
theorem empty_retrieval_terminal_witness :
    run_query "q" [] (fun c => c) = ⟨"Data not found!".toList, false⟩ :=
  empty_retrieval_terminal "q" [] (fun c => c) rfl

/-! ## C3 — store failures during bootstrap -/

/-- Concrete txt file whose insert hits a store failure (the store
connection is unhealthy during its upsert). -/
def fFail : FileEntry :=
  ⟨"a.txt", ".txt", "hi".toList, [], .error "", none, id, 2, 0, false⟩

/-- C3 counterexample: a persistence error other than duplicate-key does
propagate out of `parse_file_by_type`, but the bootstrap does not abort:
`build_or_load_vectorstore` completes normally, absorbing the file into
its skipped list exactly like a per-file parsing error, leaving index and
store untouched. -/
theorem store_error_not_fatal_cx :
    parse_file_by_type (fun c => c.length) [] fFail true 7 = .error .storeFailure ∧
    build_or_load_vectorstore (fun c => c.length) (splitText 800 100) 7 [fFail] [] [] =
      ⟨[], [], [], ["a.txt"]⟩ :=
  ⟨rfl, rfl⟩

/-- C3 (amended): a persistence error other than the duplicate-key
condition is not caught by `upsert_parsed_doc` and propagates out of the
insert (part 1), but during corpus bootstrap the per-file exception
handling of `build_or_load_vectorstore` absorbs it like a per-file
parsing error: the file is skipped and the walk continues with the
remaining files instead of aborting (part 2). -/
theorem store_error_absorbed_per_file :
    (∀ st path h md meta size mtime now,
        upsert_parsed_doc st path h md meta size mtime now false =
          .error .storeFailure) ∧
    (∀ hashFn split now (f : FileEntry) fs acc,
        strStartsWith f.name "." = false →
        (∃ e, parse_file_by_type hashFn acc.store f true now = .error e) →
        walkFiles hashFn split now (f :: fs) acc =
          walkFiles hashFn split now fs { acc with skipped := acc.skipped ++ [f.name] }) := by
  constructor
  · intro st path h md meta size mtime now
    unfold upsert_parsed_doc insert_one
    simp
  · intro hashFn split now f fs acc hdot he
    obtain ⟨e, he⟩ := he
    simp only [walkFiles, hdot, Bool.false_eq_true, if_false, he]

/-- C3 amended witness: the concrete store-failing file is skipped by a
concrete walk step. -/
theorem store_error_absorbed_per_file_witness :
    walkFiles (fun c => c.length) (splitText 800 100) 7 [fFail] ⟨[], [], [], [], []⟩ =
      walkFiles (fun c => c.length) (splitText 800 100) 7 []
        ⟨[], [], [], [], ["a.txt"]⟩ :=
  store_error_absorbed_per_file.2 (fun c => c.length) (splitText 800 100) 7 fFail []
    ⟨[], [], [], [], []⟩ (by decide) ⟨.storeFailure, rfl⟩

/-! ## C2 — cache-hit short-circuit -/

/-- PDF parser: a cache hit with `use_cache=True` short-circuits. -/
theorem parse_pdf_cache_hit (hashFn : Text → Nat) (st : Store) (path : String)
    (content : Text) (pages : List Text) (size mtime now : Nat) (storeOk : Bool)
    (c : CachedDoc) (hc : get_cached_parse st (hashFn content) = some c) :
    parse_pdf_document hashFn st path content pages true size mtime now storeOk =
      .ok ⟨st, c.md, ⟨true, hashFn content⟩, false, false⟩ := by
  simp [parse_pdf_document, hc]

/-- CSV parser: a cache hit with `use_cache=True` short-circuits. -/
theorem parse_csv_cache_hit (hashFn : Text → Nat) (st : Store) (path : String)
    (content : Text) (readResult : Except String Frame) (size mtime now : Nat)
    (storeOk : Bool) (c : CachedDoc)
    (hc : get_cached_parse st (hashFn content) = some c) :
    parse_csv_document hashFn st path content readResult true size mtime now storeOk =
      .ok ⟨st, c.md, ⟨true, hashFn content⟩, false, false⟩ := by
  simp [parse_csv_document, hc]

/-- JSON parser: a cache hit with `use_cache=True` short-circuits. -/
theorem parse_json_cache_hit (hashFn : Text → Nat) (st : Store) (path : String)
    (content : Text) (jsonPretty : Option Text) (max_chars size mtime now : Nat)
    (storeOk : Bool) (c : CachedDoc)
    (hc : get_cached_parse st (hashFn content) = some c) :
    parse_json_document hashFn st path content jsonPretty true max_chars size mtime now
      storeOk = .ok ⟨st, c.md, ⟨true, hashFn content⟩, false, false⟩ := by
  simp [parse_json_document, hc]

/-- HTML parser: a cache hit with `use_cache=True` short-circuits. -/
theorem parse_html_cache_hit (strip : Text → Text) (hashFn : Text → Nat) (st : Store)
    (path : String) (content : Text) (max_chars size mtime now : Nat)
    (storeOk : Bool) (c : CachedDoc)
    (hc : get_cached_parse st (hashFn content) = some c) :
    parse_html_document strip hashFn st path content true max_chars size mtime now
      storeOk = .ok ⟨st, c.md, ⟨true, hashFn content⟩, false, false⟩ := by
  simp [parse_html_document, hc]

/-- Cached record and txt file for the C2 counterexample: the store
already holds the file's fingerprint. -/
def cDoc0 : CachedDoc :=
  ⟨2, "a.txt", 2, 0, "CACHED".toList, [("type", "txt_or_other")], 0⟩

/-- The txt file whose fingerprint `cDoc0` already carries. -/
def fTxt : FileEntry :=
  ⟨"a.txt", ".txt", "hi".toList, [], .error "", none, id, 2, 0, true⟩

/-- C2 counterexample: dispatching a plain/unknown (`.txt`) file with
`use_cache=True` and its fingerprint already cached does NOT
short-circuit — the file is re-read and re-processed, a new insert is
attempted (recovered through the duplicate-key path), and the status says
`cached: False`, not the `cached: True` the claim requires. -/
theorem txt_cache_hit_no_short_circuit_cx :
    parse_file_by_type (fun c => c.length) [cDoc0] fTxt true 7 =
      .ok ⟨[cDoc0], "CACHED".toList, ⟨false, 2⟩, true, true⟩ ∧
    parse_file_by_type (fun c => c.length) [cDoc0] fTxt true 7 ≠
      .ok ⟨[cDoc0], "CACHED".toList, ⟨true, 2⟩, false, false⟩ := by
  refine ⟨rfl, fun hcontra => ?_⟩
  rw [show parse_file_by_type (fun c => c.length) [cDoc0] fTxt true 7 =
      .ok ⟨[cDoc0], "CACHED".toList, ⟨false, 2⟩, true, true⟩ from rfl] at hcontra
  simp at hcontra

/-- C2 (amended): for the pdf, csv, json and html formats a cache hit
with `use_cache=True` short-circuits — the cached text is returned with
`cached: True`, no format-specific reprocessing runs and no insert is
attempted (part 1). The plain/unknown fallthrough of
`parse_file_by_type`, however, never consults the cache: it always
re-reads and re-processes the file and attempts a fresh insert, and on a
duplicate it returns the previously cached record's text with a
`cached: False` status (part 2). -/
theorem dispatch_cache_hit_short_circuit :
    (∀ (hashFn : Text → Nat) (st : Store) (f : FileEntry) (now : Nat) (c : CachedDoc),
        (strLower f.ext = ".pdf" ∨ strLower f.ext = ".csv" ∨ strLower f.ext = ".json" ∨
         strLower f.ext = ".html" ∨ strLower f.ext = ".htm") →
        get_cached_parse st (hashFn f.content) = some c →
        parse_file_by_type hashFn st f true now =
          .ok ⟨st, c.md, ⟨true, hashFn f.content⟩, false, false⟩) ∧
    (∀ (hashFn : Text → Nat) (st : Store) (f : FileEntry) (now : Nat) (c : CachedDoc),
        strLower f.ext ≠ ".pdf" → strLower f.ext ≠ ".csv" → strLower f.ext ≠ ".json" →
        strLower f.ext ≠ ".html" → strLower f.ext ≠ ".htm" →
        f.storeOk = true →
        st.Pairwise (fun a b => a.file_hash ≠ b.file_hash) →
        c ∈ st → c.file_hash = hashFn f.content →
        parse_file_by_type hashFn st f true now =
          .ok ⟨st, c.md, ⟨false, hashFn f.content⟩, true, true⟩) := by
  constructor
  · intro hashFn st f now c hext hc
    simp only [parse_file_by_type]
    rcases hext with h | h | h | h | h
    · rw [if_pos h]
      exact parse_pdf_cache_hit hashFn st f.name f.content f.pages f.size f.mtime now
        f.storeOk c hc
    · rw [if_neg (by rw [h]; decide), if_pos h]
      exact parse_csv_cache_hit hashFn st f.name f.content f.csvResult f.size f.mtime now
        f.storeOk c hc
    · rw [if_neg (by rw [h]; decide), if_neg (by rw [h]; decide), if_pos h]
      exact parse_json_cache_hit hashFn st f.name f.content f.jsonPretty 200000
        f.size f.mtime now f.storeOk c hc
    · rw [if_neg (by rw [h]; decide), if_neg (by rw [h]; decide),
        if_neg (by rw [h]; decide), if_pos (Or.inl h)]
      exact parse_html_cache_hit f.strip hashFn st f.name f.content 200000
        f.size f.mtime now f.storeOk c hc
    · rw [if_neg (by rw [h]; decide), if_neg (by rw [h]; decide),
        if_neg (by rw [h]; decide), if_pos (Or.inr h)]
      exact parse_html_cache_hit f.strip hashFn st f.name f.content 200000
        f.size f.mtime now f.storeOk c hc
  · intro hashFn st f now c h1 h2 h3 h4 h5 hok hp hmem hhash
    simp only [parse_file_by_type]
    rw [if_neg h1, if_neg h2, if_neg h3, if_neg (not_or.mpr ⟨h4, h5⟩), hok]
    rw [upsert_dup_wins st f.name (hashFn f.content) (f.content.take 200000)
      (some [("type", "txt_or_other")]) f.size f.mtime now c hp hmem hhash]

/-- Cached PDF record and file for the C2 witness. -/
def cachedPdfDoc : CachedDoc := ⟨2, "d.pdf", 2, 0, "MD".toList, [("type", "pdf")], 1⟩

/-- The PDF file whose fingerprint `cachedPdfDoc` already carries. -/
def fPdf : FileEntry :=
  ⟨"d.pdf", ".pdf", "pp".toList, ["PG".toList], .error "", none, id, 2, 0, true⟩

/-- C2 amended witness: a concrete cache hit on a PDF file
short-circuits with `cached: True` and no insert attempt. -/
theorem dispatch_cache_hit_short_circuit_witness :
    parse_file_by_type (fun c => c.length) [cachedPdfDoc] fPdf true 9 =
      .ok ⟨[cachedPdfDoc], "MD".toList, ⟨true, 2⟩, false, false⟩ :=
  dispatch_cache_hit_short_circuit.1 (fun c => c.length) [cachedPdfDoc] fPdf 9
    cachedPdfDoc (by decide) (by decide)

/-! ## C6 — malformed CSV fallback -/

/-- C6: when `pd.read_csv` fails, `parse_csv_document` does not raise:
the normalized text is a literal fenced block wrapping a bounded
100,000-character raw prefix of the file, the parse error text is
recorded in the persisted metadata, and a CachedParse record is still
stored for the file. -/
theorem csv_malformed_fallback (hashFn : Text → Nat) (st : Store) (path : String)
    (content : Text) (e : String) (size mtime now : Nat)
    (hmiss : get_cached_parse st (hashFn content) = none) :
    parse_csv_document hashFn st path content (.error e) true size mtime now true =
      .ok ⟨st ++ [⟨hashFn content, path, size, mtime,
              "```\n".toList ++ content.take 100000 ++ "\n```".toList,
              [("type", "csv"), ("error", e)], now⟩],
            "```\n".toList ++ content.take 100000 ++ "\n```".toList,
            ⟨false, hashFn content⟩, true, true⟩ := by
  have hany := get_cached_parse_none_any st (hashFn content) hmiss
  simp [parse_csv_document, hmiss, upsert_parsed_doc, insert_one, hany]

/-- C6 witness: a concrete malformed CSV is absorbed into the fallback
record. -/
theorem csv_malformed_fallback_witness :
    parse_csv_document (fun c => c.length) [] "t.csv" "x;y".toList (.error "bad")
      true 3 0 5 true =
      .ok ⟨[⟨3, "t.csv", 3, 0,
              "```\n".toList ++ "x;y".toList.take 100000 ++ "\n```".toList,
              [("type", "csv"), ("error", "bad")], 5⟩],
            "```\n".toList ++ "x;y".toList.take 100000 ++ "\n```".toList,
            ⟨false, 3⟩, true, true⟩ :=
  csv_malformed_fallback (fun c => c.length) [] "t.csv" "x;y".toList "bad" 3 0 5 rfl



/-! ## C7 — malformed JSON truncation marker -/

/-- C7: when JSON parsing fails, the fallback text is the raw prefix of
at most `max_chars` characters, and the truncation marker is appended if
and only if the prefix hit the limit exactly — equivalently, iff the file
holds at least `max_chars` characters; shorter prefixes carry no
marker. -/
theorem json_malformed_truncation (hashFn : Text → Nat) (st : Store) (path : String)
    (content : Text) (max_chars size mtime now : Nat)
    (hmiss : get_cached_parse st (hashFn content) = none) :
    parse_json_document hashFn st path content none true max_chars size mtime now true =
      .ok ⟨st ++ [⟨hashFn content, path, size, mtime,
              "```json\n".toList ++ content.take max_chars ++
                (if max_chars ≤ content.length then "\n...truncated".toList else []) ++
                "\n```".toList,
              [("type", "json")], now⟩],
            "```json\n".toList ++ content.take max_chars ++
              (if max_chars ≤ content.length then "\n...truncated".toList else []) ++
              "\n```".toList,
            ⟨false, hashFn content⟩, true, true⟩ := by
  have hany := get_cached_parse_none_any st (hashFn content) hmiss
  have hpretty : (content.take max_chars).take max_chars ++
      (if (content.take max_chars).length = max_chars then "\n...truncated".toList
       else []) =
      content.take max_chars ++
      (if max_chars ≤ content.length then "\n...truncated".toList else []) := by
    rw [List.take_take, min_self]
    congr 1
    by_cases hc : max_chars ≤ content.length
    · rw [if_pos (by rw [List.length_take]; omega), if_pos hc]
    · rw [if_neg (by rw [List.length_take]; omega), if_neg hc]
  simp [parse_json_document, hmiss, upsert_parsed_doc, insert_one, hany, hpretty]

/-- C7 witness: a one-character malformed JSON below the limit carries no
marker. -/
theorem json_malformed_truncation_witness :
    parse_json_document (fun c => c.length) [] "t.json" "x".toList none true 5 1 0 9 true =
      .ok ⟨[⟨1, "t.json", 1, 0,
              "```json\n".toList ++ "x".toList.take 5 ++
                (if 5 ≤ "x".toList.length then "\n...truncated".toList else []) ++
                "\n```".toList,
              [("type", "json")], 9⟩],
            "```json\n".toList ++ "x".toList.take 5 ++
              (if 5 ≤ "x".toList.length then "\n...truncated".toList else []) ++
              "\n```".toList,
            ⟨false, 1⟩, true, true⟩ :=
  json_malformed_truncation (fun c => c.length) [] "t.json" "x".toList 5 1 0 9 rfl

/-! ## C10 — HTML input is bounded before tag-stripping -/

/-- C10: `parse_html_document` hands only the first `max_chars` raw
characters of the file to the tag-stripper, so two HTML files agreeing on
that prefix produce identical normalized text whatever the stripper and
however much markup follows — input is bounded in addition to output. -/
theorem html_input_bounded (strip : Text → Text) (hashFn : Text → Nat)
    (path1 path2 : String) (c1 c2 : Text)
    (max_chars size1 size2 mtime1 mtime2 now1 now2 : Nat)
    (hpre : c1.take max_chars = c2.take max_chars) :
    (parse_html_document strip hashFn [] path1 c1 false max_chars size1 mtime1
        now1 true).map (fun r => r.md) =
    (parse_html_document strip hashFn [] path2 c2 false max_chars size2 mtime2
        now2 true).map (fun r => r.md) := by
  simp [parse_html_document, upsert_parsed_doc, insert_one, Except.map, hpre]

/-- C10 witness: two concrete files agreeing on their first two
characters but diverging afterwards yield the same normalized text under
a concrete stripper. -/
theorem html_input_bounded_witness :
    (parse_html_document id (fun c => c.length) [] "a.html" "abc".toList false 2
        3 0 1 true).map (fun r => r.md) =
    (parse_html_document id (fun c => c.length) [] "b.html" "abd".toList false 2
        4 0 2 true).map (fun r => r.md) :=
  html_input_bounded id (fun c => c.length) "a.html" "b.html" "abc".toList "abd".toList
    2 3 4 0 0 1 2 (by decide)

/-! ## C9 — every persisted record carries the `type` discriminant -/

/-- A metadata mapping contains the `type` discriminant key. -/
def metaTyped (m : List (String × String)) : Prop := (m.lookup "type").isSome

/-- Every record of the store carries the `type` discriminant. -/
def storeTyped (st : Store) : Prop := ∀ d ∈ st, metaTyped d.meta

/-- Any successful upsert whose metadata leads with the `type` key
preserves `storeTyped` (all parser call sites do). -/
theorem upsert_preserves_typed (st : Store) (path : String) (h : Nat) (md : Text)
    (v : String) (rest : List (String × String)) (size mtime now : Nat) (ok : Bool)
    (st' : Store) (d : CachedDoc) (hst : storeTyped st)
    (he : upsert_parsed_doc st path h md (some (("type", v) :: rest)) size mtime now ok =
          .ok (st', d)) :
    storeTyped st' := by
  unfold upsert_parsed_doc insert_one at he
  cases ok with
  | false => simp at he
  | true =>
    simp only [Bool.not_true, Bool.false_eq_true, if_false] at he
    by_cases hany : st.any (fun x => x.file_hash == h) = true
    · simp only [hany, if_true] at he
      cases hlk : get_cached_parse st h with
      | some cached =>
        rw [hlk] at he
        simp only [Except.ok.injEq, Prod.mk.injEq] at he
        obtain ⟨h1, h2⟩ := he
        subst h1
        exact hst
      | none =>
        rw [hlk] at he
        simp only [Except.ok.injEq, Prod.mk.injEq] at he
        obtain ⟨h1, h2⟩ := he
        subst h1
        exact hst
    · rw [Bool.not_eq_true] at hany
      simp only [hany, Bool.false_eq_true, if_false, Except.ok.injEq, Prod.mk.injEq] at he
      obtain ⟨h1, h2⟩ := he
      subst h1
      intro x hx
      rcases List.mem_append.mp hx with hxl | hxr
      · exact hst x hxl
      · rcases List.mem_singleton.mp hxr with rfl
        simp [metaTyped, List.lookup]

/-- The PDF parser preserves the `type` invariant of the store. -/
theorem parse_pdf_preserves_typed (hashFn : Text → Nat) (st : Store) (path : String)
    (content : Text) (pages : List Text) (uc : Bool) (size mtime now : Nat) (ok : Bool)
    (ret : ParseRet)
    (he : parse_pdf_document hashFn st path content pages uc size mtime now ok = .ok ret)
    (hst : storeTyped st) : storeTyped ret.store := by
  simp only [parse_pdf_document] at he
  split at he
  next cached heq =>
    cases Except.ok.inj he
    exact hst
  next heq =>
    split at he
    next e heq2 => exact Except.noConfusion he
    next st' stored heq2 =>
      cases Except.ok.inj he
      exact upsert_preserves_typed st path (hashFn content) _ "pdf" _ size mtime now ok
        st' stored hst heq2

/-- The CSV parser preserves the `type` invariant of the store. -/
theorem parse_csv_preserves_typed (hashFn : Text → Nat) (st : Store) (path : String)
    (content : Text) (readResult : Except String Frame) (uc : Bool) (size mtime now : Nat)
    (ok : Bool) (ret : ParseRet)
    (he : parse_csv_document hashFn st path content readResult uc size mtime now ok = .ok ret)
    (hst : storeTyped st) : storeTyped ret.store := by
  simp only [parse_csv_document] at he
  split at he
  next cached heq =>
    cases Except.ok.inj he
    exact hst
  next heq =>
    split at he
    next e =>
      split at he
      next err heq2 => exact Except.noConfusion he
      next st' stored heq2 =>
        cases Except.ok.inj he
        exact upsert_preserves_typed st path (hashFn content) _ "csv" _ size mtime now ok
          st' stored hst heq2
    next df =>
      split at he
      next err heq2 => exact Except.noConfusion he
      next st' stored heq2 =>
        cases Except.ok.inj he
        exact upsert_preserves_typed st path (hashFn content) _ "csv" _ size mtime now ok
          st' stored hst heq2

/-- The JSON parser preserves the `type` invariant of the store. -/
theorem parse_json_preserves_typed (hashFn : Text → Nat) (st : Store) (path : String)
    (content : Text) (jsonPretty : Option Text) (uc : Bool) (mc size mtime now : Nat)
    (ok : Bool) (ret : ParseRet)
    (he : parse_json_document hashFn st path content jsonPretty uc mc size mtime now ok
          = .ok ret)
    (hst : storeTyped st) : storeTyped ret.store := by
  simp only [parse_json_document] at he
  split at he
  next cached heq =>
    cases Except.ok.inj he
    exact hst
  next heq =>
    split at he
    next err heq2 => exact Except.noConfusion he
    next st' stored heq2 =>
      cases Except.ok.inj he
      exact upsert_preserves_typed st path (hashFn content) _ "json" _ size mtime now ok
        st' stored hst heq2

/-- The HTML parser preserves the `type` invariant of the store. -/
theorem parse_html_preserves_typed (strip : Text → Text) (hashFn : Text → Nat) (st : Store)
    (path : String) (content : Text) (uc : Bool) (mc size mtime now : Nat) (ok : Bool)
    (ret : ParseRet)
    (he : parse_html_document strip hashFn st path content uc mc size mtime now ok = .ok ret)
    (hst : storeTyped st) : storeTyped ret.store := by
  simp only [parse_html_document] at he
  split at he
  next cached heq =>
    cases Except.ok.inj he
    exact hst
  next heq =>
    split at he
    next err heq2 => exact Except.noConfusion he
    next st' stored heq2 =>
      cases Except.ok.inj he
      exact upsert_preserves_typed st path (hashFn content) _ "html" _ size mtime now ok
        st' stored hst heq2

/-- The dispatcher (including its plain/unknown fallthrough) preserves
the `type` invariant of the store. -/
theorem parse_file_by_type_preserves_typed (hashFn : Text → Nat) (st : Store)
    (f : FileEntry) (uc : Bool) (now : Nat) (ret : ParseRet)
    (he : parse_file_by_type hashFn st f uc now = .ok ret)
    (hst : storeTyped st) : storeTyped ret.store := by
  simp only [parse_file_by_type] at he
  split at he
  · exact parse_pdf_preserves_typed hashFn st f.name f.content f.pages uc
      f.size f.mtime now f.storeOk ret he hst
  · split at he
    · exact parse_csv_preserves_typed hashFn st f.name f.content f.csvResult uc
        f.size f.mtime now f.storeOk ret he hst
    · split at he
      · exact parse_json_preserves_typed hashFn st f.name f.content f.jsonPretty uc
          200000 f.size f.mtime now f.storeOk ret he hst
      · split at he
        · exact parse_html_preserves_typed f.strip hashFn st f.name f.content uc
            200000 f.size f.mtime now f.storeOk ret he hst
        · split at he
          next err heq2 => exact Except.noConfusion he
          next st' stored heq2 =>
            cases Except.ok.inj he
            exact upsert_preserves_typed st f.name (hashFn f.content) _ "txt_or_other" _
              f.size f.mtime now f.storeOk st' stored hst heq2

/-- One cache mutation by this subsystem: a successful call to any of the
format parsers or to the dispatcher moves the ParseCache from `st` to the
store of the returned `ParseRet`. -/
inductive CacheStep (hashFn : Text → Nat) : Store → Store → Prop
  | pdf {st : Store} (path : String) (content : Text) (pages : List Text) (uc : Bool)
      (size mtime now : Nat) (ok : Bool) (ret : ParseRet)
      (he : parse_pdf_document hashFn st path content pages uc size mtime now ok = .ok ret) :
      CacheStep hashFn st ret.store
  | csv {st : Store} (path : String) (content : Text) (readResult : Except String Frame)
      (uc : Bool) (size mtime now : Nat) (ok : Bool) (ret : ParseRet)
      (he : parse_csv_document hashFn st path content readResult uc size mtime now ok
            = .ok ret) :
      CacheStep hashFn st ret.store
  | json {st : Store} (path : String) (content : Text) (jsonPretty : Option Text)
      (uc : Bool) (mc size mtime now : Nat) (ok : Bool) (ret : ParseRet)
      (he : parse_json_document hashFn st path content jsonPretty uc mc size mtime now ok
            = .ok ret) :
      CacheStep hashFn st ret.store
  | html {st : Store} (strip : Text → Text) (path : String) (content : Text) (uc : Bool)
      (mc size mtime now : Nat) (ok : Bool) (ret : ParseRet)
      (he : parse_html_document strip hashFn st path content uc mc size mtime now ok
            = .ok ret) :
      CacheStep hashFn st ret.store
  | byType {st : Store} (f : FileEntry) (uc : Bool) (now : Nat) (ret : ParseRet)
      (he : parse_file_by_type hashFn st f uc now = .ok ret) :
      CacheStep hashFn st ret.store

/-- C9: in every cache state reachable from the empty store through this
subsystem's parser operations — including the CSV and JSON
malformed-input fallback paths — every persisted CachedParse record's
metadata mapping contains the `type` discriminant key. -/
theorem cache_records_always_typed (hashFn : Text → Nat) (st : Store)
    (h : Relation.ReflTransGen (CacheStep hashFn) [] st) : storeTyped st := by
  induction h with
  | refl => intro d hd; cases hd
  | tail hr hstep ih =>
    cases hstep with
    | pdf path content pages uc size mtime now ok ret he =>
      exact parse_pdf_preserves_typed hashFn _ path content pages uc size mtime now ok
        ret he ih
    | csv path content readResult uc size mtime now ok ret he =>
      exact parse_csv_preserves_typed hashFn _ path content readResult uc size mtime now
        ok ret he ih
    | json path content jsonPretty uc mc size mtime now ok ret he =>
      exact parse_json_preserves_typed hashFn _ path content jsonPretty uc mc size mtime
        now ok ret he ih
    | html strip path content uc mc size mtime now ok ret he =>
      exact parse_html_preserves_typed strip hashFn _ path content uc mc size mtime now
        ok ret he ih
    | byType f uc now ret he =>
      exact parse_file_by_type_preserves_typed hashFn _ f uc now ret he ih

/-- Plain file freshly ingested for the C9 witness. -/
def fPlain : FileEntry :=
  ⟨"b.txt", ".txt", "ok".toList, [], .error "", none, id, 2, 0, true⟩

/-- The record `fPlain`'s ingestion persists. -/
def docPlain : CachedDoc :=
  ⟨2, "b.txt", 2, 0, "ok".toList, [("type", "txt_or_other")], 3⟩

/-- C9 witness: the store reached from empty by one concrete dispatcher
call is fully `type`-tagged. -/
theorem cache_records_always_typed_witness : storeTyped [docPlain] :=
  cache_records_always_typed (fun c => c.length) [docPlain]
    (Relation.ReflTransGen.single
      (CacheStep.byType fPlain true 3
        ⟨[docPlain], "ok".toList, ⟨false, 2⟩, true, true⟩ rfl))

end Lynx
